import Mathlib

/-!
Shallow embedding of `src/build_taxa_lineage/build_taxa_line.py`.

The module formats NCBI taxonomic lineages.  All taxonomy queries are
delegated to an external library object (`ete4.NCBITaxa`), modelled here as a
structure of abstract lookup functions; a call that may raise an exception is
modelled with `Option` (`none` = the call raised).  Python dicts are modelled
as association lists with first-match lookup and in-place overwrite on key
reassignment (Python dicts preserve insertion order and keep a key's position
on reassignment).
-/

namespace BuildTaxaLineage

/-- Lookup in a Python-dict model: first binding of the key, `none` when the
key is absent (Python `d.get(k)`). -/
def dictGet {α β : Type} [BEq α] (d : List (α × β)) (k : α) : Option β :=
  (d.find? (fun p => p.1 == k)).map (fun p => p.2)

/-- Assignment `d[k] = v` in a Python-dict model: overwrite the existing
binding in place, else append at the end (insertion order preserved). -/
def dictInsert {α β : Type} [BEq α] (d : List (α × β)) (k : α) (v : β) :
    List (α × β) :=
  match d with
  | [] => [(k, v)]
  | (k', v') :: rest =>
    if k' == k then (k, v) :: rest else (k', v') :: dictInsert rest k v

/-- The `rank_prefix` dict of the source (lines 36-46): the seven recognized
ranks and their single-letter prefixes.  The two commented-out kingdom
entries of the source are not present. -/
def rank_prefix : List (String × String) :=
  [("domain", "d"), ("phylum", "p"), ("class", "c"), ("order", "o"),
   ("family", "f"), ("genus", "g"), ("species", "s")]

/-- Python `name.replace(" ", "_")`: every space character becomes an
underscore (single-character replacement is a character map). -/
def replaceSpaces (s : String) : String :=
  String.mk (s.data.map (fun c => if c = ' ' then '_' else c))

/-- Python `"|".join(parts)`. -/
def joinPipe : List String → String
  | [] => ""
  | [s] => s
  | s :: rest => s ++ "|" ++ joinPipe rest

/-- The external taxonomy interface (`ete4.NCBITaxa`).  `get_lineage` returns
the ordered ancestor chain of a taxon id and may raise (`none`); the two
dict-returning calls may also raise, and the dicts they return may lack
keys.  The fields are abstract: the database content is a parameter of the
verification, not part of this repository. -/
structure NCBITaxa where
  get_lineage : Int → Option (List Int)
  get_taxid_translator : List Int → Option (List (Int × String))
  get_rank : List Int → Option (List (Int × String))

/-- The `for tid in lineage` loop of `build_lineage` (source lines 69-81):
for each chain id, look up its rank (`ranks.get(tid)`); when the rank is a
key of the `rank_prefix` dict, emit `prefix + "__" + name` with spaces
replaced, where the name comes from `names.get(tid)` — a missing name there
is Python `None.replace(...)`, an `AttributeError`, so the whole loop
aborts (`none`).  Ids with a missing or unrecognized rank are skipped. -/
def buildParts (ranks names : List (Int × String)) : List Int → Option (List String)
  | [] => some []
  | tid :: rest =>
    match dictGet ranks tid with
    | none => buildParts ranks names rest
    | some rank =>
      match dictGet rank_prefix rank with
      | none => buildParts ranks names rest
      | some pfx =>
        match dictGet names tid with
        | none => none
        | some name =>
          (buildParts ranks names rest).map
            (fun ps => (pfx ++ "__" ++ replaceSpaces name) :: ps)

/-- Body of `build_lineage` (source lines 49-85), without the `lru_cache`
decoration: the whole `try` block; any raising step yields `none`, the
Python `None` return of the `except` arm.  A successful run returns
`some` of the `"|"`-joined token list. -/
def build_lineage (ncbi : NCBITaxa) (taxid : Int) : Option String :=
  match ncbi.get_lineage taxid with
  | none => none
  | some lineage =>
    match ncbi.get_taxid_translator lineage with
    | none => none
    | some names =>
      match ncbi.get_rank lineage with
      | none => none
      | some ranks =>
        match buildParts ranks names lineage with
        | none => none
        | some parts => some (joinPipe parts)

/-- The process-lifetime memoization table installed by `@lru_cache` on
`build_lineage`: argument (the taxon id) to returned value (string or
Python `None`). -/
abbrev Cache := List (Int × Option String)

/-- The `@lru_cache(maxsize=None)` decoration of `build_lineage` (source
lines 49-50): on a cache hit return the stored value with no external work;
on a miss run the body once and store its result.  The `Nat` component
counts invocations of the undecorated body (hence of the external
lookup). -/
def build_lineage_cached (ncbi : NCBITaxa) (taxid : Int) (cache : Cache) :
    Option String × Nat × Cache :=
  match dictGet cache taxid with
  | some v => (v, 0, cache)
  | none =>
    let v := build_lineage ncbi taxid
    (v, 1, dictInsert cache taxid v)

/-- The list comprehension of `build_lineage_map` (source lines 100-103):
filter `ranks.get(tid) in rank_prefix`, then build
`rank_prefix[ranks[tid]] + "__" + names[tid].replace(" ", "_")`; a chain id
that passes the filter but is absent from `names` raises `KeyError`
(`none`), aborting the whole comprehension. -/
def mapParts (ranks names : List (Int × String)) : List Int → Option (List String)
  | [] => some []
  | tid :: rest =>
    match dictGet ranks tid with
    | none => mapParts ranks names rest
    | some rank =>
      match dictGet rank_prefix rank with
      | none => mapParts ranks names rest
      | some pfx =>
        match dictGet names tid with
        | none => none
        | some name =>
          (mapParts ranks names rest).map
            (fun ps => (pfx ++ "__" ++ replaceSpaces name) :: ps)

/-- One iteration of the `for taxid in taxids` loop of `build_lineage_map`
(source lines 95-107): the `try` block computes the joined string; any
raising step lands in the `except` arm, which stores Python `None`. -/
def map_item (ncbi : NCBITaxa) (taxid : Int) : Option String :=
  match ncbi.get_lineage taxid with
  | none => none
  | some lineage =>
    match ncbi.get_taxid_translator lineage with
    | none => none
    | some names =>
      match ncbi.get_rank lineage with
      | none => none
      | some ranks =>
        match mapParts ranks names lineage with
        | none => none
        | some parts => some (joinPipe parts)

/-- The loop of `build_lineage_map` (source lines 94-112), state-passing:
`acc` is the `lineage_map` dict being built, the `Nat` counts per-id
invocations of the external lookup, and the `Cache` is the process-wide
memoization table of `build_lineage` — the loop body never reads or writes
it, it is threaded through untouched. -/
def build_lineage_map_go (ncbi : NCBITaxa) :
    List Int → List (Int × Option String) → Nat → Cache →
    List (Int × Option String) × Nat × Cache
  | [], acc, n, cache => (acc, n, cache)
  | taxid :: rest, acc, n, cache =>
    build_lineage_map_go ncbi rest
      (dictInsert acc taxid (map_item ncbi taxid)) (n + 1) cache

/-- `build_lineage_map` (source lines 88-112): start from the empty dict and
process the input ids in order.  Values are `Option String`: `some s` is a
lineage string, `none` is the Python `None` stored by the `except` arm. -/
def build_lineage_map (ncbi : NCBITaxa) (taxids : List Int) :
    List (Int × Option String) :=
  (build_lineage_map_go ncbi taxids [] 0 []).1

/-! Helper lemmas about the dict model. -/

theorem dictGet_cons {α β : Type} [BEq α] (k' : α) (v' : β) (d : List (α × β))
    (k : α) :
    dictGet ((k', v') :: d) k = if k' == k then some v' else dictGet d k := by
  rcases h : (k' == k) with _ | _ <;> simp [dictGet, List.find?, h]

theorem dictGet_dictInsert_self {α β : Type} [BEq α] [LawfulBEq α]
    (d : List (α × β)) (k : α) (v : β) :
    dictGet (dictInsert d k v) k = some v := by
  induction d with
  | nil => simp [dictInsert, dictGet_cons]
  | cons p rest ih =>
    obtain ⟨k', v'⟩ := p
    by_cases h : k' = k
    · simp [dictInsert, h, dictGet_cons]
    · have hb : (k' == k) = false := beq_false_of_ne h
      simp [dictInsert, hb, dictGet_cons, ih]

theorem dictGet_dictInsert_ne {α β : Type} [BEq α] [LawfulBEq α]
    (d : List (α × β)) (k k' : α) (v : β) (h : k' ≠ k) :
    dictGet (dictInsert d k v) k' = dictGet d k' := by
  induction d with
  | nil =>
    simp [dictInsert, dictGet_cons, dictGet, beq_false_of_ne (Ne.symm h)]
  | cons p rest ih =>
    obtain ⟨k'', v''⟩ := p
    by_cases hk : k'' = k
    · subst hk
      simp [dictInsert, dictGet_cons, beq_false_of_ne (Ne.symm h),
        beq_false_of_ne h]
    · simp [dictInsert, beq_false_of_ne hk, dictGet_cons, ih]

theorem mem_keys_dictInsert {α β : Type} [BEq α] [LawfulBEq α]
    (d : List (α × β)) (k : α) (v : β) (a : α) :
    a ∈ (dictInsert d k v).map Prod.fst ↔ a = k ∨ a ∈ d.map Prod.fst := by
  induction d with
  | nil => simp [dictInsert]
  | cons p rest ih =>
    obtain ⟨k', v'⟩ := p
    by_cases h : k' = k
    · subst h
      simp [dictInsert]
    · simp only [dictInsert, beq_false_of_ne h, Bool.false_eq_true, if_false,
        List.map_cons, List.mem_cons, ih]
      tauto

theorem nodup_keys_dictInsert {α β : Type} [BEq α] [LawfulBEq α]
    (d : List (α × β)) (k : α) (v : β) (h : (d.map Prod.fst).Nodup) :
    ((dictInsert d k v).map Prod.fst).Nodup := by
  induction d with
  | nil => simp [dictInsert]
  | cons p rest ih =>
    obtain ⟨k', v'⟩ := p
    simp only [List.map_cons, List.nodup_cons] at h
    by_cases hk : k' = k
    · subst hk
      simpa [dictInsert] using h
    · simp only [dictInsert, beq_false_of_ne hk, Bool.false_eq_true, if_false,
        List.map_cons, List.nodup_cons]
      refine ⟨fun hmem => ?_, ih h.2⟩
      rcases (mem_keys_dictInsert rest k v k').1 hmem with h1 | h1
      · exact hk h1
      · exact h.1 h1

/-! Helper lemmas about the batch loop. -/

theorem mapParts_eq_buildParts (ranks names : List (Int × String))
    (l : List Int) :
    mapParts ranks names l = buildParts ranks names l := by
  induction l with
  | nil => rfl
  | cons tid rest ih => simp only [mapParts, buildParts, ih]

theorem map_item_eq_build_lineage (ncbi : NCBITaxa) (taxid : Int) :
    map_item ncbi taxid = build_lineage ncbi taxid := by
  unfold map_item build_lineage
  simp only [mapParts_eq_buildParts]

theorem build_lineage_map_go_cache (ncbi : NCBITaxa) (taxids : List Int)
    (acc : List (Int × Option String)) (n : Nat) (cache : Cache) :
    (build_lineage_map_go ncbi taxids acc n cache).2.2 = cache := by
  induction taxids generalizing acc n with
  | nil => rfl
  | cons t rest ih => simpa [build_lineage_map_go] using ih _ _

theorem build_lineage_map_go_fst_cache (ncbi : NCBITaxa) (taxids : List Int)
    (acc : List (Int × Option String)) (n n' : Nat) (cache cache' : Cache) :
    (build_lineage_map_go ncbi taxids acc n cache).1
      = (build_lineage_map_go ncbi taxids acc n' cache').1 := by
  induction taxids generalizing acc n n' with
  | nil => rfl
  | cons t rest ih =>
    simp only [build_lineage_map_go]
    exact ih _ _ _

theorem build_lineage_map_go_lookup (ncbi : NCBITaxa) (taxids : List Int)
    (a : Int) (acc : List (Int × Option String)) (n : Nat) (cache : Cache) :
    dictGet (build_lineage_map_go ncbi taxids acc n cache).1 a
      = if a ∈ taxids then some (map_item ncbi a) else dictGet acc a := by
  induction taxids generalizing acc n with
  | nil => simp [build_lineage_map_go]
  | cons t rest ih =>
    simp only [build_lineage_map_go]
    rw [ih]
    by_cases hmem : a ∈ rest
    · simp [hmem]
    · by_cases ht : a = t
      · subst ht
        simp [hmem, dictGet_dictInsert_self]
      · simp [hmem, ht, dictGet_dictInsert_ne _ _ _ _ ht]

theorem build_lineage_map_go_keys_mem (ncbi : NCBITaxa) (taxids : List Int)
    (a : Int) (acc : List (Int × Option String)) (n : Nat) (cache : Cache) :
    a ∈ (build_lineage_map_go ncbi taxids acc n cache).1.map Prod.fst ↔
      a ∈ taxids ∨ a ∈ acc.map Prod.fst := by
  induction taxids generalizing acc n with
  | nil => simp [build_lineage_map_go]
  | cons t rest ih =>
    simp only [build_lineage_map_go, List.mem_cons]
    rw [ih, mem_keys_dictInsert]
    tauto

theorem build_lineage_map_go_keys_nodup (ncbi : NCBITaxa) (taxids : List Int)
    (acc : List (Int × Option String)) (n : Nat) (cache : Cache)
    (h : (acc.map Prod.fst).Nodup) :
    ((build_lineage_map_go ncbi taxids acc n cache).1.map Prod.fst).Nodup := by
  induction taxids generalizing acc n h with
  | nil => exact h
  | cons t rest ih =>
    exact ih _ _ (nodup_keys_dictInsert _ _ _ h)

/-! Definitions written from the spec's words, to be compared with the
definitions taken from the source. -/

/-- Spec-side rank-to-prefix mapping (spec section 3): "Only seven ranks are
recognized by this system: domain, phylum, class, order, family, genus,
species — each mapped to a fixed single/double-letter prefix (d, p, c, o, f,
g, s respectively)". -/
def rankCode (r : String) : Option String :=
  if "domain" = r then some "d"
  else if "phylum" = r then some "p"
  else if "class" = r then some "c"
  else if "order" = r then some "o"
  else if "family" = r then some "f"
  else if "genus" = r then some "g"
  else if "species" = r then some "s"
  else none

/-- A chain id counts as recognized when its rank resolves and is a key of
the rank-to-prefix dict (the filter of both source loops). -/
def recognizedRank (ranks : List (Int × String)) (tid : Int) : Bool :=
  match dictGet ranks tid with
  | some r => (dictGet rank_prefix r).isSome
  | none => false

/-- Spec-side walk, one id (spec 4.1 step 3): "if its rank is one of the
seven recognized ranks, emit prefix__name_with_spaces_replaced_by_underscores;
otherwise skip it".  The name defaults to the empty string; the claims using
this definition assume a name resolves for every chain id. -/
def spec_token (ranks names : List (Int × String)) (tid : Int) : Option String :=
  match dictGet ranks tid with
  | none => none
  | some r =>
    (rankCode r).map
      (fun p => p ++ "__" ++ replaceSpaces ((dictGet names tid).getD ""))

/-- Spec-side walk (spec 4.1 steps 3-4): emit tokens over the chain in
order and join them with the pipe separator. -/
def spec_format (l : List Int) (ranks names : List (Int × String)) : String :=
  joinPipe (l.filterMap (spec_token ranks names))

/-- The token a recognized chain id contributes (used to state the batch
and all-seven-ranks properties); the defaults are never reached when the
id is recognized and its name resolves. -/
def tokenOf (ranks names : List (Int × String)) (tid : Int) : String :=
  ((dictGet ranks tid).bind (fun r => dictGet rank_prefix r)).getD "" ++ "__"
    ++ replaceSpaces ((dictGet names tid).getD "")

/-- The seven recognized rank labels, in taxonomic order. -/
def sevenRanks : List String :=
  ["domain", "phylum", "class", "order", "family", "genus", "species"]

/-- Decidable form of the regular expression [dpcofgs]__\S+ anchored at
both ends: one prefix letter, two underscores, then at least one
non-whitespace character. -/
def matchesToken (s : String) : Bool :=
  match s.data with
  | c :: '_' :: '_' :: rest =>
    (c == 'd' || c == 'p' || c == 'c' || c == 'o' || c == 'f' || c == 'g'
        || c == 's')
      && !rest.isEmpty && rest.all (fun ch => !ch.isWhitespace)
  | _ => false

/-- Number of pipe-separated fields of a string: one more than the number
of pipe characters (tokens produced by this program contain no pipe, so
this is the token count of a joined token list). -/
def pipeTokenCount (s : String) : Nat :=
  s.data.countP (fun c => c == '|') + 1

/-! Helper lemmas comparing the source walk with the spec-side walk. -/

theorem dictGet_rank_prefix (r : String) :
    dictGet rank_prefix r = rankCode r := by
  show dictGet (("domain", "d") :: _) r = _
  rw [dictGet_cons, dictGet_cons, dictGet_cons, dictGet_cons, dictGet_cons,
    dictGet_cons, dictGet_cons]
  simp only [beq_iff_eq, rankCode, dictGet, List.find?, Option.map_none']

theorem buildParts_eq_spec (ranks names : List (Int × String)) (l : List Int)
    (h : ∀ tid ∈ l, recognizedRank ranks tid = true →
      (dictGet names tid).isSome = true) :
    buildParts ranks names l = some (l.filterMap (spec_token ranks names)) := by
  induction l with
  | nil => rfl
  | cons tid rest ih =>
    have htid := h tid (List.mem_cons_self tid rest)
    have hrest := fun t ht => h t (List.mem_cons_of_mem tid ht)
    rcases hr : dictGet ranks tid with _ | r
    · have hst : spec_token ranks names tid = none := by
        simp [spec_token, hr]
      simp only [buildParts, hr, List.filterMap_cons, hst]
      exact ih hrest
    · rcases hp : dictGet rank_prefix r with _ | pfx
      · have hst : spec_token ranks names tid = none := by
          simp [spec_token, hr, ← dictGet_rank_prefix, hp]
        simp only [buildParts, hr, hp, List.filterMap_cons, hst]
        exact ih hrest
      · have hrec : recognizedRank ranks tid = true := by
          simp [recognizedRank, hr, hp]
        rcases hn : dictGet names tid with _ | name
        · have hfalse := htid hrec
          rw [hn] at hfalse
          simp at hfalse
        · have hst : spec_token ranks names tid
              = some (pfx ++ "__" ++ replaceSpaces name) := by
            simp [spec_token, hr, ← dictGet_rank_prefix, hp, hn]
          simp only [buildParts, hr, hp, hn, List.filterMap_cons, hst,
            ih hrest, Option.map_some']

theorem buildParts_eq_filter (ranks names : List (Int × String)) (l : List Int)
    (h : ∀ tid ∈ l, recognizedRank ranks tid = true →
      (dictGet names tid).isSome = true) :
    buildParts ranks names l
      = some ((l.filter (fun tid => recognizedRank ranks tid)).map
          (tokenOf ranks names)) := by
  induction l with
  | nil => rfl
  | cons tid rest ih =>
    have htid := h tid (List.mem_cons_self tid rest)
    have hrest := fun t ht => h t (List.mem_cons_of_mem tid ht)
    rcases hr : dictGet ranks tid with _ | r
    · have hrec : recognizedRank ranks tid = false := by
        simp [recognizedRank, hr]
      simp only [buildParts, hr, List.filter_cons, hrec, Bool.false_eq_true,
        if_false]
      exact ih hrest
    · rcases hp : dictGet rank_prefix r with _ | pfx
      · have hrec : recognizedRank ranks tid = false := by
          simp [recognizedRank, hr, hp]
        simp only [buildParts, hr, hp, List.filter_cons, hrec,
          Bool.false_eq_true, if_false]
        exact ih hrest
      · have hrec : recognizedRank ranks tid = true := by
          simp [recognizedRank, hr, hp]
        rcases hn : dictGet names tid with _ | name
        · have hfalse := htid hrec
          rw [hn] at hfalse
          simp at hfalse
        · have htok : tokenOf ranks names tid
              = pfx ++ "__" ++ replaceSpaces name := by
            simp [tokenOf, hr, hp, hn]
          simp only [buildParts, hr, hp, hn, List.filter_cons, hrec, if_true,
            List.map_cons, htok, ih hrest, Option.map_some']

theorem matchesToken_build (p m : String)
    (hp : p = "d" ∨ p = "p" ∨ p = "c" ∨ p = "o" ∨ p = "f" ∨ p = "g"
      ∨ p = "s")
    (hne : m.data ≠ [])
    (hws : m.data.all (fun ch => !ch.isWhitespace) = true) :
    matchesToken (p ++ "__" ++ m) = true := by
  obtain ⟨cs⟩ := m
  rcases cs with _ | ⟨c0, cs'⟩
  · simp at hne
  · rcases hp with h | h | h | h | h | h | h <;> subst h <;>
      simpa [matchesToken] using hws

/-! Concrete database instances used by the witness theorems.  These model
possible states of the external taxonomy database at concrete inputs. -/

/-- A database on which every lookup raises. -/
def faildb : NCBITaxa where
  get_lineage := fun _ => none
  get_taxid_translator := fun _ => none
  get_rank := fun _ => none

/-- Name dict of the small successful database. -/
def oknames : List (Int × String) :=
  [(1, "root"), (2759, "Eukaryota"), (9606, "Homo sapiens")]

/-- Rank dict of the small successful database. -/
def okranks : List (Int × String) :=
  [(1, "no rank"), (2759, "domain"), (9606, "species")]

/-- A small database on which the lookups for taxon id 9606 succeed. -/
def okdb : NCBITaxa where
  get_lineage := fun t => if t = 9606 then some [1, 2759, 9606] else none
  get_taxid_translator := fun l =>
    if l = [1, 2759, 9606] then some oknames else none
  get_rank := fun l => if l = [1, 2759, 9606] then some okranks else none

/-! Claim theorems. -/

/-- Claim C1: for every input list of taxon ids, `build_lineage_map` returns
normally (it is a total function in this embedding) and its result maps every
requested id; the stored value is exactly that id's own per-id resolution
`map_item` — which is the absent marker `none` when that id's resolution
fails — so a failure on one id neither aborts nor alters the processing of
the remaining ids. -/
theorem claim_C1_batch_total_isolated (ncbi : NCBITaxa) (taxids : List Int)
    (a : Int) (h : a ∈ taxids) :
    dictGet (build_lineage_map ncbi taxids) a = some (map_item ncbi a) := by
  unfold build_lineage_map
  rw [build_lineage_map_go_lookup]
  simp [h]

/-- Witness for C1 at a database where every lookup raises: both requested
ids are still mapped, each to its own (failed, `none`) resolution. -/
theorem claim_C1_witness :
    dictGet (build_lineage_map faildb [7, 8]) 8 = some (map_item faildb 8) :=
  claim_C1_batch_total_isolated faildb [7, 8] 8 (by decide)

/-- Proposition: some step of the external lookup inside `build_lineage`
raises — the chain lookup itself, the name-translator call, the rank call,
or the per-id walk (a recognized chain id whose name is missing raises
`AttributeError` on `None.replace`). -/
def lookupFails (ncbi : NCBITaxa) (taxid : Int) : Prop :=
  ncbi.get_lineage taxid = none ∨
  ∃ l, ncbi.get_lineage taxid = some l ∧
    (ncbi.get_taxid_translator l = none ∨
     ncbi.get_rank l = none ∨
     ∃ names ranks, ncbi.get_taxid_translator l = some names ∧
       ncbi.get_rank l = some ranks ∧ buildParts ranks names l = none)

/-- Claim C3: whenever any step of the external lookup fails,
`build_lineage` returns the absent marker `none`; the embedding is a total
function, so no exception ever propagates to the caller. -/
theorem claim_C3_failure_contained (ncbi : NCBITaxa) (taxid : Int)
    (h : lookupFails ncbi taxid) :
    build_lineage ncbi taxid = none := by
  unfold build_lineage
  rcases h with h | ⟨l, hl, h⟩
  · simp [h]
  · rw [hl]
    rcases h with h | h | ⟨names, ranks, h1, h2, h3⟩
    · simp [h]
    · rcases ht : ncbi.get_taxid_translator l with _ | names
      · simp [ht]
      · simp [ht, h]
    · simp [h1, h2, h3]

/-- Witness for C3 at a database whose chain lookup raises. -/
theorem claim_C3_witness : build_lineage faildb 5 = none :=
  claim_C3_failure_contained faildb 5 (Or.inl rfl)

/-- Claim C4: calling the memoized `build_lineage` twice with the same taxon
id yields the identical result (even when that result is the failure marker),
leaves the cache unchanged on the second call, performs zero body invocations
(hence zero external lookups) on the second call, and performs at most one
across both calls. -/
theorem claim_C4_memoized (ncbi : NCBITaxa) (taxid : Int) (cache : Cache) :
    (build_lineage_cached ncbi taxid
        (build_lineage_cached ncbi taxid cache).2.2).1
      = (build_lineage_cached ncbi taxid cache).1 ∧
    (build_lineage_cached ncbi taxid
        (build_lineage_cached ncbi taxid cache).2.2).2.1 = 0 ∧
    (build_lineage_cached ncbi taxid
        (build_lineage_cached ncbi taxid cache).2.2).2.2
      = (build_lineage_cached ncbi taxid cache).2.2 ∧
    (build_lineage_cached ncbi taxid cache).2.1 +
      (build_lineage_cached ncbi taxid
        (build_lineage_cached ncbi taxid cache).2.2).2.1 ≤ 1 := by
  rcases h : dictGet cache taxid with _ | v
  · simp [build_lineage_cached, h, dictGet_dictInsert_self]
  · simp [build_lineage_cached, h]

/-- Claim C5: when `build_lineage` succeeds with a string for a taxon id,
the batch mapping built from the one-element list of that id stores the
identical string under that id. -/
theorem claim_C5_single_batch_agree (ncbi : NCBITaxa) (x : Int) (s : String)
    (h : build_lineage ncbi x = some s) :
    dictGet (build_lineage_map ncbi [x]) x = some (some s) := by
  unfold build_lineage_map
  rw [build_lineage_map_go_lookup]
  simp [map_item_eq_build_lineage, h]

/-- Witness for C5 at the small successful database: the single and batch
paths both yield the lineage of taxon 9606. -/
theorem claim_C5_witness :
    dictGet (build_lineage_map okdb [9606]) 9606
      = some (some "d__Eukaryota|s__Homo_sapiens") :=
  claim_C5_single_batch_agree okdb 9606 "d__Eukaryota|s__Homo_sapiens"
    (by decide)

/-- Claim C2: for a taxon id whose external lookups succeed — the chain
resolves, both dicts are returned, and a name resolves for every chain id —
`build_lineage` returns exactly the string described by the spec's walk
(`spec_format`): in chain order, each id whose rank is one of the seven
recognized ranks contributes prefix__name with spaces replaced by
underscores, other ids are skipped, and the tokens are pipe-joined. -/
theorem claim_C2_walk_refines_spec (ncbi : NCBITaxa) (x : Int) (l : List Int)
    (names ranks : List (Int × String))
    (hl : ncbi.get_lineage x = some l)
    (hn : ncbi.get_taxid_translator l = some names)
    (hr : ncbi.get_rank l = some ranks)
    (hnames : ∀ tid ∈ l, (dictGet names tid).isSome = true) :
    build_lineage ncbi x = some (spec_format l ranks names) := by
  unfold build_lineage
  simp only [hl, hn, hr,
    buildParts_eq_spec ranks names l (fun tid ht _ => hnames tid ht)]
  rfl

/-- Witness for C2 at the small successful database. -/
theorem claim_C2_witness :
    build_lineage okdb 9606 = some (spec_format [1, 2759, 9606] okranks oknames) :=
  claim_C2_walk_refines_spec okdb 9606 [1, 2759, 9606] oknames okranks
    (by decide) (by decide) (by decide) (by decide)

/-- Claim C6: for a taxon id whose external lookups succeed but whose chain
has no id with a recognized rank, `build_lineage` returns the empty string,
which is distinct from the absent marker `none`. -/
theorem claim_C6_empty_not_absent (ncbi : NCBITaxa) (x : Int) (l : List Int)
    (names ranks : List (Int × String))
    (hl : ncbi.get_lineage x = some l)
    (hn : ncbi.get_taxid_translator l = some names)
    (hr : ncbi.get_rank l = some ranks)
    (hnone : ∀ tid ∈ l, recognizedRank ranks tid = false) :
    build_lineage ncbi x = some "" ∧ (some "" : Option String) ≠ none := by
  refine ⟨?_, by simp⟩
  unfold build_lineage
  have hnames : ∀ tid ∈ l, recognizedRank ranks tid = true →
      (dictGet names tid).isSome = true := by
    intro tid ht hrec
    rw [hnone tid ht] at hrec
    cases hrec
  have hfil : l.filter (fun tid => recognizedRank ranks tid) = [] := by
    refine List.filter_eq_nil_iff.2 (fun a ha => ?_)
    simp [hnone a ha]
  simp only [hl, hn, hr, buildParts_eq_filter ranks names l hnames, hfil]
  rfl

/-- Witness for C6: a database whose chain for taxon 10 resolves but carries
only unrecognized ranks. -/
def norankdb : NCBITaxa where
  get_lineage := fun t => if t = 10 then some [1, 10] else none
  get_taxid_translator := fun l =>
    if l = [1, 10] then some [(1, "root"), (10, "cellular organisms")]
    else none
  get_rank := fun l =>
    if l = [1, 10] then some [(1, "no rank"), (10, "clade")] else none

/-- Witness for C6 at that database. -/
theorem claim_C6_witness :
    build_lineage norankdb 10 = some "" ∧ (some "" : Option String) ≠ none :=
  claim_C6_empty_not_absent norankdb 10 [1, 10]
    [(1, "root"), (10, "cellular organisms")]
    [(1, "no rank"), (10, "clade")]
    (by decide) (by decide) (by decide) (by decide)

/-- Claim C7: the mapping returned by `build_lineage_map` has exactly the
distinct input ids as keys, each exactly once (its key list has no
duplicates and its members are precisely the input's members), and every
key's stored value is that id's deterministic per-id resolution — so when an
id occurs more than once all writes are identical and the surviving last
write equals any of them. -/
theorem claim_C7_keys_exact (ncbi : NCBITaxa) (taxids : List Int) :
    ((build_lineage_map ncbi taxids).map Prod.fst).Nodup ∧
    (∀ a : Int,
      a ∈ (build_lineage_map ncbi taxids).map Prod.fst ↔ a ∈ taxids) ∧
    ∀ a : Int, dictGet (build_lineage_map ncbi taxids) a
      = if a ∈ taxids then some (map_item ncbi a) else none := by
  refine ⟨build_lineage_map_go_keys_nodup ncbi taxids [] 0 [] (by simp),
    fun a => ?_, fun a => ?_⟩
  · rw [build_lineage_map, build_lineage_map_go_keys_mem]
    simp
  · rw [build_lineage_map, build_lineage_map_go_lookup]
    rcases h : dictGet ([] : List (Int × Option String)) a with _ | v
    · rfl
    · cases h

/-- Claim C9: `build_lineage_map` neither reads from nor writes to the
memoization cache of `build_lineage`: threading any cache state through the
batch loop returns that state unchanged, and the mapping produced is the
same as the one computed with the empty cache — batch results are
independent of any cached single-lookup results. -/
theorem claim_C9_cache_frame (ncbi : NCBITaxa) (taxids : List Int)
    (cache : Cache) :
    (build_lineage_map_go ncbi taxids [] 0 cache).2.2 = cache ∧
    (build_lineage_map_go ncbi taxids [] 0 cache).1
      = build_lineage_map ncbi taxids :=
  ⟨build_lineage_map_go_cache ncbi taxids [] 0 cache,
   build_lineage_map_go_fst_cache ncbi taxids [] 0 0 cache []⟩

/-- Claim C10: called with the empty id list, `build_lineage_map` returns
the empty mapping, and the batch loop performs zero per-id external
lookups whatever cache state it is started in. -/
theorem claim_C10_empty_input (ncbi : NCBITaxa) :
    build_lineage_map ncbi [] = [] ∧
    ∀ cache : Cache, (build_lineage_map_go ncbi [] [] 0 cache).2.1 = 0 :=
  ⟨rfl, fun _ => rfl⟩

/-- Rank dict of the duplicate-species counterexample database: every one of
the seven recognized ranks occurs, and species occurs twice. -/
def cexranks : List (Int × String) :=
  [(1, "domain"), (2, "phylum"), (3, "class"), (4, "order"), (5, "family"),
   (6, "genus"), (7, "species"), (8, "species")]

/-- Name dict of the duplicate-species counterexample database. -/
def cexnames : List (Int × String) :=
  [(1, "A"), (2, "B"), (3, "C"), (4, "D"), (5, "E"), (6, "F"), (7, "G"),
   (8, "H")]

/-- A database whose chain for taxon 1 carries ancestors at all seven
recognized ranks plus a second species-ranked ancestor. -/
def cexdb : NCBITaxa where
  get_lineage := fun t =>
    if t = 1 then some [1, 2, 3, 4, 5, 6, 7, 8] else none
  get_taxid_translator := fun l =>
    if l = [1, 2, 3, 4, 5, 6, 7, 8] then some cexnames else none
  get_rank := fun l =>
    if l = [1, 2, 3, 4, 5, 6, 7, 8] then some cexranks else none

/-- Counterexample to claim C8 as stated: at this database the ancestor
chain of taxon 1 contains ancestors at all seven recognized ranks, yet the
output of `build_lineage` consists of eight pipe-separated tokens, not
seven — the chain carries a second species-ranked ancestor, and nothing in
the code bounds the token count by the number of distinct ranks. -/
theorem claim_C8_counterexample :
    (∀ r ∈ sevenRanks, ∃ tid ∈ ([1, 2, 3, 4, 5, 6, 7, 8] : List Int),
        dictGet cexranks tid = some r) ∧
    build_lineage cexdb 1 = some "d__A|p__B|c__C|o__D|f__E|g__F|s__G|s__H" ∧
    pipeTokenCount "d__A|p__B|c__C|o__D|f__E|g__F|s__G|s__H" = 8 := by
  decide

/-- Claim C8, amended: when the external lookups succeed and the chain's
recognized-rank ancestors are exactly one per recognized rank, in chain
order domain, phylum, class, order, family, genus, species, each with a
resolvable name that is nonempty and free of non-space whitespace, the
output is exactly the seven pipe-joined tokens, each matching the anchored
regular expression [dpcofgs]__\S+, ordered from domain to species. -/
theorem claim_C8_amended (ncbi : NCBITaxa) (x : Int) (l : List Int)
    (names ranks : List (Int × String)) (t1 t2 t3 t4 t5 t6 t7 : Int)
    (n1 n2 n3 n4 n5 n6 n7 : String)
    (hl : ncbi.get_lineage x = some l)
    (hn : ncbi.get_taxid_translator l = some names)
    (hr : ncbi.get_rank l = some ranks)
    (hfil : l.filter (fun tid => recognizedRank ranks tid)
      = [t1, t2, t3, t4, t5, t6, t7])
    (hr1 : dictGet ranks t1 = some "domain")
    (hr2 : dictGet ranks t2 = some "phylum")
    (hr3 : dictGet ranks t3 = some "class")
    (hr4 : dictGet ranks t4 = some "order")
    (hr5 : dictGet ranks t5 = some "family")
    (hr6 : dictGet ranks t6 = some "genus")
    (hr7 : dictGet ranks t7 = some "species")
    (hn1 : dictGet names t1 = some n1)
    (hn2 : dictGet names t2 = some n2)
    (hn3 : dictGet names t3 = some n3)
    (hn4 : dictGet names t4 = some n4)
    (hn5 : dictGet names t5 = some n5)
    (hn6 : dictGet names t6 = some n6)
    (hn7 : dictGet names t7 = some n7)
    (hw : ∀ m ∈ [n1, n2, n3, n4, n5, n6, n7], (replaceSpaces m).data ≠ []
      ∧ (replaceSpaces m).data.all (fun ch => !ch.isWhitespace) = true) :
    ∃ toks : List String,
      toks = ["d" ++ "__" ++ replaceSpaces n1, "p" ++ "__" ++ replaceSpaces n2,
        "c" ++ "__" ++ replaceSpaces n3, "o" ++ "__" ++ replaceSpaces n4,
        "f" ++ "__" ++ replaceSpaces n5, "g" ++ "__" ++ replaceSpaces n6,
        "s" ++ "__" ++ replaceSpaces n7] ∧
      build_lineage ncbi x = some (joinPipe toks) ∧
      toks.length = 7 ∧
      ∀ t ∈ toks, matchesToken t = true := by
  have hnames : ∀ tid ∈ l, recognizedRank ranks tid = true →
      (dictGet names tid).isSome = true := by
    intro tid ht hrec
    have hmem : tid ∈ l.filter (fun tid => recognizedRank ranks tid) :=
      List.mem_filter.2 ⟨ht, hrec⟩
    rw [hfil] at hmem
    simp only [List.mem_cons, List.not_mem_nil, or_false] at hmem
    rcases hmem with h | h | h | h | h | h | h <;> subst h <;>
      simp [hn1, hn2, hn3, hn4, hn5, hn6, hn7]
  refine ⟨_, rfl, ?_, rfl, ?_⟩
  · unfold build_lineage
    have e1 : tokenOf ranks names t1 = "d" ++ "__" ++ replaceSpaces n1 := by
      simp [tokenOf, hr1, hn1, dictGet_rank_prefix, rankCode]
    have e2 : tokenOf ranks names t2 = "p" ++ "__" ++ replaceSpaces n2 := by
      simp [tokenOf, hr2, hn2, dictGet_rank_prefix, rankCode]
    have e3 : tokenOf ranks names t3 = "c" ++ "__" ++ replaceSpaces n3 := by
      simp [tokenOf, hr3, hn3, dictGet_rank_prefix, rankCode]
    have e4 : tokenOf ranks names t4 = "o" ++ "__" ++ replaceSpaces n4 := by
      simp [tokenOf, hr4, hn4, dictGet_rank_prefix, rankCode]
    have e5 : tokenOf ranks names t5 = "f" ++ "__" ++ replaceSpaces n5 := by
      simp [tokenOf, hr5, hn5, dictGet_rank_prefix, rankCode]
    have e6 : tokenOf ranks names t6 = "g" ++ "__" ++ replaceSpaces n6 := by
      simp [tokenOf, hr6, hn6, dictGet_rank_prefix, rankCode]
    have e7 : tokenOf ranks names t7 = "s" ++ "__" ++ replaceSpaces n7 := by
      simp [tokenOf, hr7, hn7, dictGet_rank_prefix, rankCode]
    simp only [hl, hn, hr, buildParts_eq_filter ranks names l hnames, hfil,
      List.map_cons, List.map_nil, e1, e2, e3, e4, e5, e6, e7]
  · intro t ht
    have hw1 := hw n1 (by simp)
    have hw2 := hw n2 (by simp)
    have hw3 := hw n3 (by simp)
    have hw4 := hw n4 (by simp)
    have hw5 := hw n5 (by simp)
    have hw6 := hw n6 (by simp)
    have hw7 := hw n7 (by simp)
    simp only [List.mem_cons, List.not_mem_nil, or_false] at ht
    rcases ht with h | h | h | h | h | h | h <;> subst h
    · exact matchesToken_build "d" _ (by simp) hw1.1 hw1.2
    · exact matchesToken_build "p" _ (by simp) hw2.1 hw2.2
    · exact matchesToken_build "c" _ (by simp) hw3.1 hw3.2
    · exact matchesToken_build "o" _ (by simp) hw4.1 hw4.2
    · exact matchesToken_build "f" _ (by simp) hw5.1 hw5.2
    · exact matchesToken_build "g" _ (by simp) hw6.1 hw6.2
    · exact matchesToken_build "s" _ (by simp) hw7.1 hw7.2

/-- Name dict of the all-seven-ranks witness database. -/
def db7names : List (Int × String) :=
  [(0, "root"), (1, "Bacteria"), (2, "Pseudomonadota"),
   (3, "Gammaproteobacteria"), (4, "Enterobacterales"),
   (5, "Enterobacteriaceae"), (6, "Escherichia"), (7, "Escherichia coli")]

/-- Rank dict of the all-seven-ranks witness database. -/
def db7ranks : List (Int × String) :=
  [(0, "no rank"), (1, "domain"), (2, "phylum"), (3, "class"), (4, "order"),
   (5, "family"), (6, "genus"), (7, "species")]

/-- A database whose chain for taxon 7 has exactly one ancestor at each of
the seven recognized ranks, in order, below an unranked root. -/
def db7 : NCBITaxa where
  get_lineage := fun t =>
    if t = 7 then some [0, 1, 2, 3, 4, 5, 6, 7] else none
  get_taxid_translator := fun l =>
    if l = [0, 1, 2, 3, 4, 5, 6, 7] then some db7names else none
  get_rank := fun l =>
    if l = [0, 1, 2, 3, 4, 5, 6, 7] then some db7ranks else none

/-- Witness for the amended C8 at that database. -/
theorem claim_C8_witness :
    ∃ toks : List String,
      toks = ["d" ++ "__" ++ replaceSpaces "Bacteria",
        "p" ++ "__" ++ replaceSpaces "Pseudomonadota",
        "c" ++ "__" ++ replaceSpaces "Gammaproteobacteria",
        "o" ++ "__" ++ replaceSpaces "Enterobacterales",
        "f" ++ "__" ++ replaceSpaces "Enterobacteriaceae",
        "g" ++ "__" ++ replaceSpaces "Escherichia",
        "s" ++ "__" ++ replaceSpaces "Escherichia coli"] ∧
      build_lineage db7 7 = some (joinPipe toks) ∧
      toks.length = 7 ∧
      ∀ t ∈ toks, matchesToken t = true :=
  claim_C8_amended db7 7 [0, 1, 2, 3, 4, 5, 6, 7] db7names db7ranks
    1 2 3 4 5 6 7 "Bacteria" "Pseudomonadota" "Gammaproteobacteria"
    "Enterobacterales" "Enterobacteriaceae" "Escherichia" "Escherichia coli"
    (by decide) (by decide) (by decide) (by decide) (by decide) (by decide)
    (by decide) (by decide) (by decide) (by decide) (by decide) (by decide)
    (by decide) (by decide) (by decide) (by decide) (by decide) (by decide)
    (by decide)

end BuildTaxaLineage
